import Mathlib

/-!
Verification of `packages/driver/src/cypress/stack_utils.js`.

JavaScript strings are embedded as `List Char` (abbreviated `Str`).  The
regular expressions of the source are embedded by a small regular-expression
datatype with character classes, a Brzozowski-derivative matcher `rmatch`,
and a proof that the matcher agrees with the inductive match semantics
`REMatch`.  The external collaborators of the file (the `error-stack-parser`
npm package and the source-map resolver `source_map_utils`) are passed as
function parameters; a concrete parser modelled from the spec is provided
for evaluating the pipeline on concrete inputs.
-/

abbrev Str := List Char

/-! Regular expressions with character classes, and a derivative matcher. -/

/-- Regular expressions over characters; `cls p` matches a single character
satisfying the Boolean class `p`. -/
inductive RE where
  | emp : RE
  | eps : RE
  | cls : (Char → Bool) → RE
  | cat : RE → RE → RE
  | alt : RE → RE → RE
  | star : RE → RE

/-- Match semantics of the regular expressions. -/
inductive REMatch : RE → Str → Prop where
  | eps : REMatch RE.eps []
  | cls {p : Char → Bool} {c : Char} : p c = true → REMatch (RE.cls p) [c]
  | cat {a b : RE} {s t : Str} :
      REMatch a s → REMatch b t → REMatch (RE.cat a b) (s ++ t)
  | altL {a b : RE} {s : Str} : REMatch a s → REMatch (RE.alt a b) s
  | altR {a b : RE} {s : Str} : REMatch b s → REMatch (RE.alt a b) s
  | starNil {a : RE} : REMatch (RE.star a) []
  | starCat {a : RE} {s t : Str} :
      REMatch a s → REMatch (RE.star a) t → REMatch (RE.star a) (s ++ t)

/-- Nullability: does the expression match the empty string? -/
def nullable : RE → Bool
  | .emp => false
  | .eps => true
  | .cls _ => false
  | .cat a b => nullable a && nullable b
  | .alt a b => nullable a || nullable b
  | .star _ => true

/-- Smart concatenation constructor, simplifying `emp` and `eps`. -/
def mkCat : RE → RE → RE
  | .emp, _ => .emp
  | .eps, b => b
  | _, .emp => .emp
  | a, .eps => a
  | a, b => .cat a b

/-- Smart alternation constructor, simplifying `emp`. -/
def mkAlt : RE → RE → RE
  | .emp, b => b
  | a, .emp => a
  | a, b => .alt a b

/-- Brzozowski derivative of a regular expression by a character. -/
def rderiv : RE → Char → RE
  | .emp, _ => .emp
  | .eps, _ => .emp
  | .cls p, c => if p c then .eps else .emp
  | .cat a b, c =>
      if nullable a then mkAlt (mkCat (rderiv a c) b) (rderiv b c)
      else mkCat (rderiv a c) b
  | .alt a b, c => mkAlt (rderiv a c) (rderiv b c)
  | .star a, c => mkCat (rderiv a c) (.star a)

/-- Derivative-based matcher. -/
def rmatch : RE → Str → Bool
  | r, [] => nullable r
  | r, c :: s => rmatch (rderiv r c) s

theorem not_rematch_emp {s : Str} : ¬ REMatch RE.emp s := by
  intro h; cases h

theorem rematch_eps_iff {s : Str} : REMatch RE.eps s ↔ s = [] := by
  constructor
  · intro h; cases h; rfl
  · rintro rfl; exact REMatch.eps

theorem rematch_cat_iff {a b : RE} {s : Str} :
    REMatch (RE.cat a b) s ↔ ∃ u v, s = u ++ v ∧ REMatch a u ∧ REMatch b v := by
  constructor
  · intro h; cases h with
    | cat hu hv => exact ⟨_, _, rfl, hu, hv⟩
  · rintro ⟨u, v, rfl, hu, hv⟩; exact REMatch.cat hu hv

theorem rematch_alt_iff {a b : RE} {s : Str} :
    REMatch (RE.alt a b) s ↔ REMatch a s ∨ REMatch b s := by
  constructor
  · intro h; cases h with
    | altL h => exact Or.inl h
    | altR h => exact Or.inr h
  · rintro (h | h)
    · exact REMatch.altL h
    · exact REMatch.altR h

theorem rematch_cat_emp_left {b : RE} {s : Str} : ¬ REMatch (RE.cat RE.emp b) s := by
  intro h
  rcases rematch_cat_iff.mp h with ⟨u, v, _, hu, _⟩
  exact not_rematch_emp hu

theorem rematch_cat_emp_right {a : RE} {s : Str} : ¬ REMatch (RE.cat a RE.emp) s := by
  intro h
  rcases rematch_cat_iff.mp h with ⟨u, v, _, _, hv⟩
  exact not_rematch_emp hv

theorem rematch_cat_eps_left {b : RE} {s : Str} :
    REMatch (RE.cat RE.eps b) s ↔ REMatch b s := by
  constructor
  · intro h
    rcases rematch_cat_iff.mp h with ⟨u, v, rfl, hu, hv⟩
    cases rematch_eps_iff.mp hu
    simpa using hv
  · intro h
    have : REMatch (RE.cat RE.eps b) ([] ++ s) := REMatch.cat REMatch.eps h
    simpa using this

theorem rematch_cat_eps_right {a : RE} {s : Str} :
    REMatch (RE.cat a RE.eps) s ↔ REMatch a s := by
  constructor
  · intro h
    rcases rematch_cat_iff.mp h with ⟨u, v, rfl, hu, hv⟩
    cases rematch_eps_iff.mp hv
    simpa using hu
  · intro h
    have : REMatch (RE.cat a RE.eps) (s ++ []) := REMatch.cat h REMatch.eps
    simpa using this

theorem rematch_mkCat {a b : RE} {s : Str} :
    REMatch (mkCat a b) s ↔ REMatch (RE.cat a b) s := by
  cases a <;> cases b <;>
    simp [mkCat, not_rematch_emp, rematch_cat_emp_left, rematch_cat_emp_right,
      rematch_cat_eps_left, rematch_cat_eps_right]

theorem rematch_mkAlt {a b : RE} {s : Str} :
    REMatch (mkAlt a b) s ↔ REMatch (RE.alt a b) s := by
  cases a <;> cases b <;>
    simp [mkAlt, rematch_alt_iff, not_rematch_emp]

theorem nullable_iff (r : RE) : nullable r = true ↔ REMatch r [] := by
  induction r with
  | emp => simp [nullable, not_rematch_emp]
  | eps => simp [nullable, rematch_eps_iff]
  | cls p =>
    constructor
    · intro h; simp [nullable] at h
    · intro h; cases h
  | cat a b iha ihb =>
    simp only [nullable, Bool.and_eq_true, iha, ihb, rematch_cat_iff]
    constructor
    · rintro ⟨ha, hb⟩; exact ⟨[], [], rfl, ha, hb⟩
    · rintro ⟨u, v, huv, hu, hv⟩
      rcases List.append_eq_nil.mp huv.symm with ⟨rfl, rfl⟩
      exact ⟨hu, hv⟩
  | alt a b iha ihb =>
    simp only [nullable, Bool.or_eq_true, iha, ihb, rematch_alt_iff]
  | star a ih =>
    simp only [nullable, true_iff]
    exact REMatch.starNil

theorem rderiv_sound : ∀ (r : RE) (c : Char) (s : Str),
    REMatch (rderiv r c) s → REMatch r (c :: s) := by
  intro r
  induction r with
  | emp => intro c s h; exact absurd h not_rematch_emp
  | eps => intro c s h; exact absurd h not_rematch_emp
  | cls p =>
    intro c s h
    by_cases hp : p c = true
    · rw [rderiv, if_pos hp] at h
      cases rematch_eps_iff.mp h
      exact REMatch.cls hp
    · rw [rderiv, if_neg hp] at h
      exact absurd h not_rematch_emp
  | cat a b iha ihb =>
    intro c s h
    by_cases hn : nullable a = true
    · rw [rderiv, if_pos hn] at h
      rcases rematch_alt_iff.mp (rematch_mkAlt.mp h) with h | h
      · rcases rematch_cat_iff.mp (rematch_mkCat.mp h) with ⟨u, v, rfl, hu, hv⟩
        exact (List.cons_append c u v) ▸ REMatch.cat (iha c u hu) hv
      · have ha : REMatch a [] := (nullable_iff a).mp hn
        have : REMatch (RE.cat a b) ([] ++ c :: s) := REMatch.cat ha (ihb c s h)
        simpa using this
    · rw [rderiv, if_neg hn] at h
      rcases rematch_cat_iff.mp (rematch_mkCat.mp h) with ⟨u, v, rfl, hu, hv⟩
      exact (List.cons_append c u v) ▸ REMatch.cat (iha c u hu) hv
  | alt a b iha ihb =>
    intro c s h
    rcases rematch_alt_iff.mp (rematch_mkAlt.mp (by simpa [rderiv] using h)) with h | h
    · exact REMatch.altL (iha c s h)
    · exact REMatch.altR (ihb c s h)
  | star a ih =>
    intro c s h
    rcases rematch_cat_iff.mp (rematch_mkCat.mp (by simpa [rderiv] using h)) with
      ⟨u, v, rfl, hu, hv⟩
    exact (List.cons_append c u v) ▸ REMatch.starCat (ih c u hu) hv

theorem rderiv_complete {r : RE} {s : Str} (h : REMatch r s) :
    ∀ (c : Char) (t : Str), s = c :: t → REMatch (rderiv r c) t := by
  induction h with
  | eps => intro c t ht; cases ht
  | cls hp =>
    intro c t ht
    cases ht
    rw [rderiv, if_pos hp]
    exact REMatch.eps
  | @cat a b s₁ s₂ h₁ h₂ ih₁ ih₂ =>
    intro c t ht
    cases s₁ with
    | nil =>
      have hn : nullable a = true := (nullable_iff a).mpr h₁
      have hb : REMatch (rderiv b c) t := ih₂ c t (by simpa using ht)
      rw [rderiv, if_pos hn]
      exact rematch_mkAlt.mpr (REMatch.altR hb)
    | cons c₁ s₁' =>
      have hc : c₁ = c := by
        have := ht
        simp only [List.cons_append, List.cons.injEq] at this
        exact this.1
      have htl : t = s₁' ++ s₂ := by
        have := ht
        simp only [List.cons_append, List.cons.injEq] at this
        exact this.2.symm
      subst hc
      have ha : REMatch (rderiv a c₁) s₁' := ih₁ c₁ s₁' rfl
      have hcc : REMatch (mkCat (rderiv a c₁) b) (s₁' ++ s₂) :=
        rematch_mkCat.mpr (REMatch.cat ha h₂)
      by_cases hn : nullable a = true
      · rw [rderiv, if_pos hn, htl]
        exact rematch_mkAlt.mpr (REMatch.altL hcc)
      · rw [rderiv, if_neg hn, htl]
        exact hcc
  | @altL a b s₁ h₁ ih =>
    intro c t ht
    rw [rderiv]
    exact rematch_mkAlt.mpr (REMatch.altL (ih c t ht))
  | @altR a b s₁ h₁ ih =>
    intro c t ht
    rw [rderiv]
    exact rematch_mkAlt.mpr (REMatch.altR (ih c t ht))
  | starNil => intro c t ht; cases ht
  | @starCat a s₁ s₂ h₁ h₂ ih₁ ih₂ =>
    intro c t ht
    cases s₁ with
    | nil => exact ih₂ c t (by simpa using ht)
    | cons c₁ s₁' =>
      have hc : c₁ = c := by
        have := ht
        simp only [List.cons_append, List.cons.injEq] at this
        exact this.1
      have htl : t = s₁' ++ s₂ := by
        have := ht
        simp only [List.cons_append, List.cons.injEq] at this
        exact this.2.symm
      subst hc
      rw [rderiv, htl]
      exact rematch_mkCat.mpr (REMatch.cat (ih₁ c₁ s₁' rfl) h₂)

theorem rmatch_iff : ∀ (s : Str) (r : RE), rmatch r s = true ↔ REMatch r s := by
  intro s
  induction s with
  | nil => intro r; simpa [rmatch] using nullable_iff r
  | cons c cs ih =>
    intro r
    rw [rmatch, ih (rderiv r c)]
    constructor
    · exact rderiv_sound r c cs
    · intro h; exact rderiv_complete h c cs rfl

/-! Character classes of the JavaScript regular expressions in the source. -/

/-- JavaScript whitespace class `\s` (the WhiteSpace and LineTerminator
code points). -/
def jsWs (c : Char) : Bool :=
  c.toNat = 9 || c.toNat = 10 || c.toNat = 11 || c.toNat = 12 || c.toNat = 13 ||
  c.toNat = 32 || c.toNat = 0xa0 || c.toNat = 0x1680 ||
  (0x2000 ≤ c.toNat && c.toNat ≤ 0x200a) ||
  c.toNat = 0x2028 || c.toNat = 0x2029 || c.toNat = 0x202f ||
  c.toNat = 0x205f || c.toNat = 0x3000 || c.toNat = 0xfeff

/-- JavaScript digit class `\d`. -/
def jsDigit (c : Char) : Bool :=
  48 ≤ c.toNat && c.toNat ≤ 57

/-- JavaScript `.` (any character except a line terminator). -/
def jsDot (c : Char) : Bool :=
  !(c.toNat = 10 || c.toNat = 13 || c.toNat = 0x2028 || c.toNat = 0x2029)

/-- Single-character regular expression. -/
def chrB (c : Char) : RE := RE.cls (fun x => x == c)

/-- Literal-string regular expression. -/
def strRE (s : Str) : RE := s.foldr (fun c r => RE.cat (chrB c) r) RE.eps

/-- Optional part (`r?`). -/
def optRE (r : RE) : RE := RE.alt RE.eps r

/-- One-or-more repetition (`r+`). -/
def plusRE (r : RE) : RE := RE.cat r (RE.star r)

/-- Embedding of the source's
`stackLineRegex = /^\s*(at )?.*@?\(?.*\:\d+\:\d+\)?$/` (stack_utils.js line 9).
The regex is anchored at both ends, so the whole line must be consumed. -/
def stackLineRE : RE :=
  RE.cat (RE.star (RE.cls jsWs))
   (RE.cat (optRE (strRE ("at ".toList)))
    (RE.cat (RE.star (RE.cls jsDot))
     (RE.cat (optRE (chrB '@'))
      (RE.cat (optRE (chrB '('))
       (RE.cat (RE.star (RE.cls jsDot))
        (RE.cat (chrB ':')
         (RE.cat (plusRE (RE.cls jsDigit))
          (RE.cat (chrB ':')
           (RE.cat (plusRE (RE.cls jsDigit))
            (optRE (chrB ')')))))))))))

/-- The test `stackLineRegex.test(line)` of the source. -/
def jsTest (line : Str) : Bool := rmatch stackLineRE line

/-! JavaScript string primitives used by the source, over `List Char`. -/

/-- JavaScript `String.prototype.split` on a single character:
`"".split(c)` is `[""]`, and separators delimit (possibly empty) fields. -/
def splitOnChar (c : Char) : Str → List Str
  | [] => [[]]
  | a :: r =>
    if a = c then [] :: splitOnChar c r
    else
      match splitOnChar c r with
      | [] => [[a]]
      | l :: ls => (a :: l) :: ls

/-- JavaScript `Array.prototype.join` with a single-character separator. -/
def joinChar (c : Char) : List Str → Str
  | [] => []
  | [l] => l
  | l :: l' :: ls => l ++ c :: joinChar c (l' :: ls)

/-- The `stack.split('\n')` of the source. -/
def splitNl (s : Str) : List Str := splitOnChar '\n' s

/-- The `.join('\n')` of the source. -/
def joinNl (ls : List Str) : Str := joinChar '\n' ls

/-- Does `s` start with `p`? (JavaScript has no such primitive in the source;
this is a helper for `jsIncludes`.) -/
def strStarts : Str → Str → Bool
  | _, [] => true
  | [], _ :: _ => false
  | a :: r, b :: p => a = b && strStarts r p

/-- JavaScript `String.prototype.includes` / `indexOf(x) > -1`: does `sub`
occur as a contiguous substring of `s`? -/
def jsIncludes : Str → Str → Bool
  | [], sub => sub.isEmpty
  | a :: r, sub => strStarts (a :: r) sub || jsIncludes r sub

/-- JavaScript `String.prototype.indexOf` on a single character: first index,
or `-1` when absent. -/
def jsIndexOf : Str → Char → Int
  | [], _ => -1
  | a :: r, c =>
    if a = c then 0
    else if jsIndexOf r c < 0 then -1 else jsIndexOf r c + 1

/-- JavaScript `s.slice(0, e)`: a negative end counts from the end of the
string (clamped at 0). -/
def jsSliceZero (s : Str) (e : Int) : Str :=
  if e < 0 then s.take (((s.length : Int) + e).toNat) else s.take e.toNat

/-- The idiom `s.slice(0, s.indexOf('\n'))` of `normalizeStack` (stack_utils.js
lines 170-171): the first line when a newline exists, otherwise all but the
last character (because `indexOf` returns `-1`). -/
def jsFirstLine (s : Str) : Str := jsSliceZero s (jsIndexOf s '\n')

/-! Embedding of `stack_utils.js`. -/

/-- The body of the `_.reduce` of `splitStack` (stack_utils.js lines 15-23):
the Boolean component is the sticky `memo.messageEnded` flag, the other two
are the message and stack line accumulators (`push` appends). -/
def splitStackStep (memo : Bool × List Str × List Str) (line : Str) :
    Bool × List Str × List Str :=
  if memo.1 || jsTest line then (true, memo.2.1, memo.2.2 ++ [line])
  else (memo.1, memo.2.1 ++ [line], memo.2.2)

/-- `splitStack` (stack_utils.js lines 12-25): a `_.reduce` over the lines of
the stack with a sticky `messageEnded` flag; returns the tuple
(message lines, stack lines). -/
def splitStack (stack : Str) : List Str × List Str :=
  let lines := splitNl stack
  (lines.foldl splitStackStep (false, ([], []))).2

/-- `getWhitespace` (stack_utils.js lines 60-67): the first capture group of
`whitespaceRegex = /^(\s*)\S*/`, which is the maximal leading run of `\s`
characters (the `!line` guard returns `''` for the empty string, which
coincides with the empty take). -/
def getWhitespace (line : Str) : Str := line.takeWhile jsWs

/-- A frame as returned by the external `error-stack-parser` package. -/
structure ESFrame where
  functionName : Option Str
  fileName : Str
  lineNumber : Nat
  columnNumber : Nat
deriving DecidableEq, Repr

/-- The type of the external frame-string parsing collaborator
(`errorStackParser.parse({ stack: line })[0]`, `undefined` as `none`). -/
def ParseFn := Str → Option ESFrame

/-- The structured generated-position details built by `parseLine`
(stack_utils.js lines 106-111). -/
structure FrameDetails where
  line : Nat
  column : Nat
  file : Str
  function : Str
deriving DecidableEq, Repr

/-- A source position returned by the external resolver
`$sourceMapUtils.getSourcePosition`. -/
structure SrcPos where
  line : Nat
  column : Nat
  file : Str
deriving DecidableEq, Repr

/-- The type of the external source-map resolving collaborator
(`getSourcePosition(generatedFile, {line, column})`). -/
def ResolveFn := Str → FrameDetails → Option SrcPos

/-- `cleanFunctionName` (stack_utils.js lines 89-95): a non-string name becomes
`"<unknown>"`; otherwise a trailing `/<` or `</<` (regex
`/(\/<|<\/<)$/`, leftmost alternative wins, so a trailing `</<` is removed
whole) is stripped. -/
def cleanFunctionName (functionName : Option Str) : Str :=
  match functionName with
  | none => "<unknown>".toList
  | some f =>
    if strStarts f.reverse ("</<".toList.reverse) then f.take (f.length - 3)
    else if strStarts f.reverse ("/<".toList.reverse) then f.take (f.length - 2)
    else f

/-- `parseLine` (stack_utils.js lines 97-112): `none` when the line fails
`stackLineRegex` or the external parser yields no frame. -/
def parseLine (P : ParseFn) (line : Str) : Option FrameDetails :=
  if jsTest line then
    match P line with
    | none => none
    | some parsed =>
      some { line := parsed.lineNumber
             column := parsed.columnNumber
             file := parsed.fileName
             function := cleanFunctionName parsed.functionName }
  else none

/-- `getSourceDetails` (stack_utils.js lines 69-87): ask the resolver; on
failure return the generated details unchanged; on success take line, column
and file from the resolver and rewrite the function name `Context.eval` to
`Test.run`. -/
def getSourceDetails (R : ResolveFn) (generatedDetails : FrameDetails) : FrameDetails :=
  match R generatedDetails.file generatedDetails with
  | none => generatedDetails
  | some sourceDetails =>
    { line := sourceDetails.line
      column := sourceDetails.column
      file := sourceDetails.file
      function :=
        if generatedDetails.function = ("Context.eval".toList) then ("Test.run".toList)
        else generatedDetails.function }

/-- Abstraction of node's `path.join(projectRoot, file)`; no claim observes
the `absoluteFile` field it produces, so path normalization is not modelled. -/
def pathJoin (root f : Str) : Str := root ++ '/' :: f

/-- The per-line result of `getSourceDetailsForLine`: either a message line
(its full text plus its leading whitespace) or a parsed-and-mapped frame. -/
inductive ParsedLine where
  | message (message : Str) (whitespace : Str)
  | frame (function : Str) (fileUrl : Str) (relativeFile : Str)
      (absoluteFile : Str) (line : Nat) (column : Nat) (whitespace : Str)
deriving DecidableEq, Repr

/-- `getSourceDetailsForLine` (stack_utils.js lines 114-138); note `column`
is the mapped column plus 1. -/
def getSourceDetailsForLine (P : ParseFn) (R : ResolveFn) (projectRoot : Str)
    (line : Str) : ParsedLine :=
  let whitespace := getWhitespace line
  match parseLine P line with
  | none => ParsedLine.message line whitespace
  | some generatedDetails =>
    let sourceDetails := getSourceDetails R generatedDetails
    ParsedLine.frame sourceDetails.function generatedDetails.file
      sourceDetails.file (pathJoin projectRoot sourceDetails.file)
      sourceDetails.line (sourceDetails.column + 1) whitespace

/-- Decimal rendering of a number, as JavaScript template literals do. -/
def natStr (n : Nat) : Str := (toString n).toList

/-- `reconstructStack` (stack_utils.js lines 140-150). -/
def reconstructStack (parsedStack : List ParsedLine) : Str :=
  joinNl (parsedStack.map fun parsedLine =>
    match parsedLine with
    | .message message whitespace => whitespace ++ message
    | .frame fn _ relativeFile _ line column whitespace =>
      whitespace ++ ("at ".toList) ++ fn ++ (" (".toList) ++
        (if relativeFile = [] then "<unknown>".toList else relativeFile) ++
        ':' :: natStr line ++ ':' :: natStr column ++ [')'])

/-- `getSourceStack` (stack_utils.js lines 152-162): `{}` (here `none`) for a
non-string stack (here `none`, covering `undefined`/`null`/non-strings),
otherwise the parsed lines and the reconstructed source-mapped stack. -/
def getSourceStack (P : ParseFn) (R : ResolveFn) (stack : Option Str)
    (projectRoot : Str) : Option (List ParsedLine × Str) :=
  match stack with
  | none => none
  | some s =>
    let parsed := (splitNl s).map (getSourceDetailsForLine P R projectRoot)
    some (parsed, reconstructStack parsed)

/-! The error-object operations of `stack_utils.js`. -/

/-- The result record of `getCodeFrameFromSource` (stack_utils.js lines
38-45). -/
structure CodeFrameResult where
  line : Nat
  column : Nat
  relativeFile : Str
  absoluteFile : Str
  frame : Str
  language : Option Str
deriving DecidableEq, Repr

/-- An error object, as far as the operations of the file inspect it.
`stack` is `none` for a missing/`null`/`undefined` stack; `toStr` is the
result of `err.toString()`. -/
structure ErrObj where
  toStr : Str
  stack : Option Str
  codeFrame : Option CodeFrameResult
  parsedStack : Option (List ParsedLine)
deriving DecidableEq, Repr

/-- JavaScript falsiness of a string-or-missing value (`!err.stack`):
`undefined`, `null` and the empty string are falsy. -/
def jsFalsy : Option Str → Bool
  | none => true
  | some s => s.isEmpty

/-- `normalizeStack` (stack_utils.js lines 164-179): prepend
`err.toString()` and a newline to the stack unless the stack's first line
already contains the error's first line, where both "first lines" are
computed by `slice(0, indexOf('\n'))` (all but the last character when no
newline exists). -/
def normalizeStack (err : ErrObj) : ErrObj :=
  let errString := err.toStr
  let errStack := err.stack.getD []
  let firstErrLine := jsFirstLine errString
  let firstStackLine := jsFirstLine errStack
  let stackIncludesMsg := jsIncludes firstStackLine firstErrLine
  if stackIncludesMsg then err
  else { err with stack := some (errString ++ '\n' :: errStack) }

/-- `replaceStack` (stack_utils.js lines 181-196): an error without a stack is
returned untouched; otherwise the new stack's frame lines, minus any line
mentioning `__getSpecFrameStack`, are joined below `err.toString()`. -/
def replaceStack (err : ErrObj) (newStack : Str) : ErrObj :=
  if jsFalsy err.stack then err
  else
    let errString := err.toStr
    let stackLines := (splitStack newStack).2
    let relevantStackLines :=
      stackLines.filter (fun l => !jsIncludes l ("__getSpecFrameStack".toList))
    { err with stack := some (joinNl (errString :: relevantStackLines)) }

/-- `hasStack` (stack_utils.js lines 198-204). -/
def hasStack (err : ErrObj) : Bool :=
  match err.stack with
  | none => false
  | some s => if s.isEmpty then false else !(splitStack s).2.isEmpty

/-- `isFromCypress` (stack_utils.js lines 206-211): there is no guard, so
`err.stack.split('\n')` raises a TypeError (here `Except.error ()`) when the
stack is missing or `null`; when frame lines are empty the `&&` short-circuit
yields a falsy value (here `false`). -/
def isFromCypress (err : ErrObj) : Except Unit Bool :=
  match err.stack with
  | none => Except.error ()
  | some s =>
    Except.ok
      (match (splitStack s).2.head? with
       | none => false
       | some firstStackLine => jsIncludes firstStackLine ("cypress://".toList))

/-! Code-frame extraction. -/

/-- Model of node's `path.extname`: the substring of the basename from its
last dot, empty for dotfiles and extensionless names. -/
def extnameStr (f : Str) : Str :=
  let base := (splitOnChar '/' f).getLastD []
  match splitOnChar '.' base with
  | [] => []
  | [_] => []
  | firstPart :: restParts =>
    if firstPart.isEmpty && restParts.length == 1 then []
    else '.' :: (firstPart :: restParts).getLastD []

/-- Removal of the first occurrence of a character
(JavaScript `replace('.', '')`). -/
def removeFirstChar (c : Char) : Str → Str
  | [] => []
  | a :: r => if a = c then r else a :: removeFirstChar c r

/-- `getLanguageFromExtension` (stack_utils.js lines 27-29). -/
def getLanguageFromExtension (filePath : Str) : Option Str :=
  let e := removeFirstChar '.' ((extnameStr filePath).map Char.toLower)
  if e.isEmpty then none else some e

/-- The type of the external source-contents collaborator
(`$sourceMapUtils.getSourceContents(fileUrl, relativeFile)`). -/
def ContentsFn := Str → Str → Option Str

/-- The type of the external `codeFrameColumns` renderer from
`@babel/code-frame` (`undefined` as `none`). -/
def CodeFrameFn := Str → Nat × Nat → Option Str

/-- `getCodeFrameFromSource` (stack_utils.js lines 31-46): `undefined` when
the source code or the rendered frame is falsy. -/
def getCodeFrameFromSource (cfc : CodeFrameFn) (sourceCode : Option Str)
    (line column : Nat) (relativeFile absoluteFile : Str) : Option CodeFrameResult :=
  match sourceCode with
  | none => none
  | some src =>
    if src.isEmpty then none
    else
      match cfc src (line, column) with
      | none => none
      | some fr =>
        if fr.isEmpty then none
        else
          some { line := line, column := column, relativeFile := relativeFile,
                 absoluteFile := absoluteFile, frame := fr,
                 language := getLanguageFromExtension relativeFile }

/-- The `fileUrl` of a parsed line, when it is a frame line. -/
def parsedLineFileUrl : ParsedLine → Option Str
  | .message _ _ => none
  | .frame _ fileUrl _ _ _ _ _ => some fileUrl

/-- `getCodeFrame` (stack_utils.js lines 48-58): pass a precomputed code frame
through; otherwise use the first parsed line with a truthy `fileUrl`
(`_.find` over a missing `parsedStack` finds nothing). -/
def getCodeFrame (gsc : ContentsFn) (cfc : CodeFrameFn) (err : ErrObj) :
    Option CodeFrameResult :=
  match err.codeFrame with
  | some cf => some cf
  | none =>
    match (err.parsedStack.getD []).find?
        (fun pl => match parsedLineFileUrl pl with
                   | some u => !u.isEmpty
                   | none => false) with
    | none => none
    | some pl =>
      match pl with
      | .message _ _ => none
      | .frame _ fileUrl relativeFile absoluteFile line column _ =>
        getCodeFrameFromSource cfc (gsc fileUrl relativeFile) line column
          relativeFile absoluteFile

/-! A concrete frame-string parser, for evaluating the pipeline. -/

/-- Trim of leading and trailing JavaScript whitespace. -/
def trimWs (s : Str) : Str :=
  ((s.dropWhile jsWs).reverse.dropWhile jsWs).reverse

/-- Digits-only string to number. -/
def strToNat? (s : Str) : Option Nat :=
  if !s.isEmpty && s.all jsDigit then
    some (s.foldl (fun n c => n * 10 + (c.toNat - 48)) 0)
  else none

/-- Splitting of a `file:line:column` location at its last two colons. -/
def parseLoc (loc : Str) : Option (Str × Nat × Nat) :=
  match (splitOnChar ':' loc).reverse with
  | colPart :: linePart :: restParts =>
    if restParts.isEmpty then none
    else
      match strToNat? colPart, strToNat? linePart with
      | some col, some ln => some (joinChar ':' restParts.reverse, ln, col)
      | _, _ => none
  | _ => none

/-- Modelled from the spec: the external `error-stack-parser` npm package
called by `parseLine` is not part of the repository sources. Spec 4.3
requires the frame parser to extract function name, file path/URL, line and
column, handling the Chromium dialect `at fn (file:L:C)` and the Firefox
dialect `fn@file:L:C` uniformly, with a missing name reported as absent (the
caller substitutes `<unknown>`). -/
def specParseFn (line : Str) : Option ESFrame :=
  let l := trimWs line
  let rest := if strStarts l ("at ".toList) then l.drop 3 else l
  if rest.contains '(' then
    let fnPart := trimWs (rest.takeWhile (fun c => !(c == '(')))
    let inner := (rest.dropWhile (fun c => !(c == '('))).drop 1
    let loc := if strStarts inner.reverse ([')']) then inner.take (inner.length - 1)
               else inner
    match parseLoc loc with
    | none => none
    | some (f, ln, col) =>
      some { functionName := if fnPart.isEmpty then none else some fnPart,
             fileName := f, lineNumber := ln, columnNumber := col }
  else if rest.contains '@' then
    let fnPart := rest.takeWhile (fun c => !(c == '@'))
    let loc := (rest.dropWhile (fun c => !(c == '@'))).drop 1
    match parseLoc loc with
    | none => none
    | some (f, ln, col) =>
      some { functionName := if fnPart.isEmpty then none else some fnPart,
             fileName := f, lineNumber := ln, columnNumber := col }
  else
    match parseLoc rest with
    | none => none
    | some (f, ln, col) =>
      some { functionName := none, fileName := f, lineNumber := ln, columnNumber := col }

/-! Helper lemmas about the string primitives. -/

theorem splitOnChar_ne_nil (c : Char) (s : Str) : splitOnChar c s ≠ [] := by
  cases s with
  | nil => simp [splitOnChar]
  | cons a r =>
    by_cases h : a = c
    · simp [splitOnChar, h]
    · simp only [splitOnChar, if_neg h]
      cases hr : splitOnChar c r with
      | nil => simp
      | cons l ls => simp

theorem joinChar_splitOnChar (c : Char) (s : Str) :
    joinChar c (splitOnChar c s) = s := by
  induction s with
  | nil => simp [splitOnChar, joinChar]
  | cons a r ih =>
    by_cases h : a = c
    · subst h
      rw [splitOnChar, if_pos rfl]
      cases hr : splitOnChar a r with
      | nil => exact absurd hr (splitOnChar_ne_nil a r)
      | cons l ls =>
        rw [joinChar]
        rw [hr] at ih
        simp [ih]
    · rw [splitOnChar, if_neg h]
      cases hr : splitOnChar c r with
      | nil => exact absurd hr (splitOnChar_ne_nil c r)
      | cons l ls =>
        rw [hr] at ih
        cases ls with
        | nil => simpa [joinChar] using congrArg (a :: ·) ih
        | cons l' ls' => simpa [joinChar] using congrArg (a :: ·) ih

theorem splitOnChar_no_sep {c : Char} {s : Str} (h : c ∉ s) :
    splitOnChar c s = [s] := by
  induction s with
  | nil => simp [splitOnChar]
  | cons a r ih =>
    have ha : ¬ a = c := fun hac => h (by simp [hac])
    have hr : c ∉ r := fun hcr => h (List.mem_cons_of_mem a hcr)
    rw [splitOnChar, if_neg ha, ih hr]

theorem strStarts_refl (s : Str) : strStarts s s = true := by
  induction s with
  | nil => rfl
  | cons a r ih => simp [strStarts, ih]

theorem strStarts_take (s : Str) (n : Nat) : strStarts s (s.take n) = true := by
  induction s generalizing n with
  | nil => simp [List.take_nil, strStarts]
  | cons a r ih =>
    cases n with
    | zero => simp [strStarts]
    | succ m => simp [List.take, strStarts, ih]

theorem jsIncludes_of_starts {s sub : Str} (h : strStarts s sub = true) :
    jsIncludes s sub = true := by
  cases s with
  | nil =>
    cases sub with
    | nil => rfl
    | cons b p => simp [strStarts] at h
  | cons a r => simp [jsIncludes, h]

theorem jsIncludes_refl (s : Str) : jsIncludes s s = true :=
  jsIncludes_of_starts (strStarts_refl s)

theorem jsIncludes_take (s : Str) (n : Nat) : jsIncludes s (s.take n) = true :=
  jsIncludes_of_starts (strStarts_take s n)

theorem jsIndexOf_not_mem {c : Char} {s : Str} (h : c ∉ s) :
    jsIndexOf s c = -1 := by
  induction s with
  | nil => rfl
  | cons a r ih =>
    have ha : ¬ a = c := fun hac => h (by simp [hac])
    have hr : c ∉ r := fun hcr => h (List.mem_cons_of_mem a hcr)
    simp [jsIndexOf, ha, ih hr]

theorem jsIndexOf_append_cons {c : Char} {u : Str} (w : Str) (h : c ∉ u) :
    jsIndexOf (u ++ c :: w) c = (u.length : Int) := by
  induction u with
  | nil => simp [jsIndexOf]
  | cons a u' ih =>
    have ha : ¬ a = c := fun hac => h (by simp [hac])
    have hu : c ∉ u' := fun hcu => h (List.mem_cons_of_mem a hcu)
    rw [List.cons_append, jsIndexOf, if_neg ha, ih hu,
      if_neg (by omega : ¬ ((u'.length : Int) < 0))]
    simp only [List.length_cons]
    omega

theorem jsFirstLine_append_cons {u : Str} (w : Str) (h : '\n' ∉ u) :
    jsFirstLine (u ++ '\n' :: w) = u := by
  rw [jsFirstLine, jsIndexOf_append_cons w h, jsSliceZero,
    if_neg (by omega : ¬ ((u.length : Int) < 0))]
  simp only [Int.toNat_natCast]
  exact List.take_left u ('\n' :: w)

theorem jsFirstLine_no_nl {s : Str} (h : '\n' ∉ s) :
    jsFirstLine s = s.take (s.length - 1) := by
  rw [jsFirstLine, jsIndexOf_not_mem h, jsSliceZero,
    if_pos (by norm_num : (-1 : Int) < 0)]
  congr 1
  omega

theorem mem_split_first {c : Char} {s : Str} (h : c ∈ s) :
    ∃ u v, s = u ++ c :: v ∧ c ∉ u := by
  induction s with
  | nil => cases h
  | cons a r ih =>
    by_cases hac : a = c
    · exact ⟨[], r, by simp [hac], by simp⟩
    · have hr : c ∈ r := by
        rcases List.mem_cons.mp h with h1 | h1
        · exact absurd h1.symm hac
        · exact h1
      rcases ih hr with ⟨u, v, rfl, hu⟩
      refine ⟨a :: u, v, rfl, ?_⟩
      intro hmem
      rcases List.mem_cons.mp hmem with h1 | h1
      · exact hac h1.symm
      · exact hu h1

/-! Characterization of `splitStack`. -/

theorem foldl_splitStackStep_true (lines : List Str) :
    ∀ (ms fs : List Str),
      lines.foldl splitStackStep (true, ms, fs) = (true, ms, fs ++ lines) := by
  induction lines with
  | nil => intro ms fs; simp
  | cons l ls ih =>
    intro ms fs
    have hstep : splitStackStep (true, ms, fs) l = (true, ms, fs ++ [l]) := by
      simp [splitStackStep]
    rw [List.foldl_cons, hstep, ih]
    simp

theorem foldl_splitStackStep_false (lines : List Str) :
    ∀ (ms fs : List Str),
      (lines.foldl splitStackStep (false, ms, fs)).2 =
        (ms ++ lines.takeWhile (fun l => !jsTest l),
         fs ++ lines.dropWhile (fun l => !jsTest l)) := by
  induction lines with
  | nil => intro ms fs; simp
  | cons l ls ih =>
    intro ms fs
    by_cases ht : jsTest l = true
    · have hstep : splitStackStep (false, ms, fs) l = (true, ms, fs ++ [l]) := by
        simp [splitStackStep, ht]
      rw [List.foldl_cons, hstep, foldl_splitStackStep_true]
      simp [List.takeWhile, List.dropWhile, ht]
    · have hstep : splitStackStep (false, ms, fs) l = (false, ms ++ [l], fs) := by
        simp [splitStackStep, ht]
      rw [List.foldl_cons, hstep, ih]
      simp [List.takeWhile, List.dropWhile, ht]

/-- The split of a stack equals the take/drop of its lines at the first line
matching the frame grammar. -/
theorem splitStack_parts (s : Str) :
    splitStack s =
      ((splitNl s).takeWhile (fun l => !jsTest l),
       (splitNl s).dropWhile (fun l => !jsTest l)) := by
  rw [splitStack]
  rw [foldl_splitStackStep_false]
  simp

/-! Lemmas for `normalizeStack`. -/

/-- The first stack line of `errString ++ '\n' ++ errStack` always contains
the computed first line of `errString` — the heart of the idempotence of
`normalizeStack`. -/
theorem jsFirstLine_prepend_incl (ts es : Str) :
    jsIncludes (jsFirstLine (ts ++ '\n' :: es)) (jsFirstLine ts) = true := by
  by_cases hn : '\n' ∈ ts
  · rcases mem_split_first hn with ⟨u, v, rfl, hu⟩
    have h1 : jsFirstLine (u ++ '\n' :: v) = u := jsFirstLine_append_cons v hu
    have h2 : jsFirstLine ((u ++ '\n' :: v) ++ '\n' :: es) = u := by
      have : (u ++ '\n' :: v) ++ '\n' :: es = u ++ '\n' :: (v ++ '\n' :: es) := by
        simp
      rw [this]
      exact jsFirstLine_append_cons _ hu
    rw [h1, h2]
    exact jsIncludes_refl u
  · have h1 : jsFirstLine ts = ts.take (ts.length - 1) := jsFirstLine_no_nl hn
    have h2 : jsFirstLine (ts ++ '\n' :: es) = ts := jsFirstLine_append_cons es hn
    rw [h1, h2]
    exact jsIncludes_take ts (ts.length - 1)

/-! Lemmas for the round trip of message-only stacks. -/

theorem joinChar_map_congr (c : Char) (g : Str → Str) :
    ∀ (ls : List Str), (∀ l ∈ ls, g l = l) → joinChar c (ls.map g) = joinChar c ls := by
  intro ls
  induction ls with
  | nil => intro _; rfl
  | cons l ls ih =>
    intro h
    have hl : g l = l := h l (List.mem_cons_self l ls)
    cases ls with
    | nil => simp [joinChar, hl]
    | cons l' ls' =>
      have hrest := ih (fun x hx => h x (List.mem_cons_of_mem l hx))
      simp only [List.map_cons] at hrest ⊢
      rw [joinChar, joinChar, hl, hrest]

/-! Construction lemmas for the stack-line grammar. -/

theorem rematch_star_all {p : Char → Bool} :
    ∀ {s : Str}, (∀ c ∈ s, p c = true) → REMatch (RE.star (RE.cls p)) s := by
  intro s
  induction s with
  | nil => intro _; exact REMatch.starNil
  | cons c cs ih =>
    intro h
    have hc : p c = true := h c (List.mem_cons_self c cs)
    have hrest := ih (fun x hx => h x (List.mem_cons_of_mem c hx))
    exact (REMatch.starCat (REMatch.cls hc) hrest : REMatch _ ([c] ++ cs))

theorem rematch_plus_all {p : Char → Bool} {s : Str} (hne : s ≠ [])
    (h : ∀ c ∈ s, p c = true) : REMatch (plusRE (RE.cls p)) s := by
  cases s with
  | nil => exact absurd rfl hne
  | cons c cs =>
    have hc : p c = true := h c (List.mem_cons_self c cs)
    have hrest := rematch_star_all (fun x hx => h x (List.mem_cons_of_mem c hx))
    exact (REMatch.cat (REMatch.cls hc) hrest : REMatch _ ([c] ++ cs))

theorem rematch_opt_nil {r : RE} : REMatch (optRE r) [] := REMatch.altL REMatch.eps

/-- Any string whose characters avoid line terminators, followed by
`:digits:digits` and an optional `)`, matches the stack-line grammar. -/
theorem stackLineRE_match (p d1 d2 tail : Str)
    (hp : ∀ c ∈ p, jsDot c = true)
    (h1 : d1 ≠ []) (h1d : ∀ c ∈ d1, jsDigit c = true)
    (h2 : d2 ≠ []) (h2d : ∀ c ∈ d2, jsDigit c = true)
    (ht : REMatch (optRE (chrB ')')) tail) :
    REMatch stackLineRE (p ++ ':' :: (d1 ++ ':' :: (d2 ++ tail))) := by
  have m1 : REMatch (RE.star (RE.cls jsWs)) [] := REMatch.starNil
  have m2 : REMatch (optRE (strRE ("at ".toList))) [] := rematch_opt_nil
  have m3 : REMatch (RE.star (RE.cls jsDot)) p := rematch_star_all hp
  have m4 : REMatch (optRE (chrB '@')) [] := rematch_opt_nil
  have m5 : REMatch (optRE (chrB '(')) [] := rematch_opt_nil
  have m6 : REMatch (RE.star (RE.cls jsDot)) [] := REMatch.starNil
  have m7 : REMatch (chrB ':') [':'] := REMatch.cls (by rfl)
  have m8 : REMatch (plusRE (RE.cls jsDigit)) d1 := rematch_plus_all h1 h1d
  have m9 : REMatch (plusRE (RE.cls jsDigit)) d2 := rematch_plus_all h2 h2d
  exact (REMatch.cat m1 (REMatch.cat m2 (REMatch.cat m3 (REMatch.cat m4
    (REMatch.cat m5 (REMatch.cat m6 (REMatch.cat m7 (REMatch.cat m8
      (REMatch.cat m7 (REMatch.cat m9 ht))))))))) :
    REMatch stackLineRE ([] ++ ([] ++ (p ++ ([] ++ ([] ++ ([] ++ ([':'] ++
      (d1 ++ ([':'] ++ (d2 ++ tail)))))))))))

/-! The claims. -/

/-- C4: `splitStack` processes lines top-to-bottom with a one-way sticky
transition: the message lines are exactly the lines before the first line
matching the frame grammar (all of which fail the grammar), and the frame
lines are all lines from the first match on, regardless of whether they
themselves match. -/
theorem C4_sticky_split (s : Str) :
    (splitStack s).1 = (splitNl s).takeWhile (fun l => !jsTest l) ∧
    (splitStack s).2 = (splitNl s).dropWhile (fun l => !jsTest l) ∧
    (∀ l ∈ (splitStack s).1, jsTest l = false) := by
  have h := splitStack_parts s
  refine ⟨by rw [h], by rw [h], ?_⟩
  intro l hl
  rw [h] at hl
  simpa using List.mem_takeWhile_imp hl

/-- C5: the number of message lines plus the number of frame lines returned
by `splitStack` equals the number of newline-separated lines of the stack,
and the two sequences concatenate back to the original line sequence in
order. -/
theorem C5_split_partition (s : Str) :
    (splitStack s).1.length + (splitStack s).2.length = (splitNl s).length ∧
    (splitStack s).1 ++ (splitStack s).2 = splitNl s := by
  have hcat : (splitStack s).1 ++ (splitStack s).2 = splitNl s := by
    rw [splitStack_parts]
    exact List.takeWhile_append_dropWhile _ _
  refine ⟨?_, hcat⟩
  have := congrArg List.length hcat
  rw [List.length_append] at this
  exact this

/-- C7: when source-map resolution succeeds, the mapped frame's function name
is `Test.run` exactly when the generated frame's function name is the
sentinel `Context.eval`; any other name passes through unchanged. -/
theorem C7_context_eval_rewrite (R : ResolveFn) (gd : FrameDetails) (sd : SrcPos)
    (h : R gd.file gd = some sd) :
    (getSourceDetails R gd).function =
      if gd.function = ("Context.eval".toList) then ("Test.run".toList)
      else gd.function := by
  rw [getSourceDetails, h]

theorem C7_witness :
    (getSourceDetails (fun _ _ => some ⟨5, 1, "spec.js".toList⟩)
        ⟨10, 3, "bundle.js".toList, "Context.eval".toList⟩).function =
      ("Test.run".toList) :=
  (C7_context_eval_rewrite (fun _ _ => some ⟨5, 1, "spec.js".toList⟩)
    ⟨10, 3, "bundle.js".toList, "Context.eval".toList⟩ ⟨5, 1, "spec.js".toList⟩
    rfl).trans (by decide)

/-- C8: `replaceStack` on an error whose stack is falsy (missing, `null` or
the empty string) returns the error completely unmodified. -/
theorem C8_replace_stackless (e : ErrObj) (newStack : Str)
    (h : jsFalsy e.stack = true) : replaceStack e newStack = e := by
  rw [replaceStack, if_pos h]

theorem C8_witness :
    replaceStack ⟨"Error: x".toList, none, none, none⟩
      ("at foo (f.js:1:2)".toList) = ⟨"Error: x".toList, none, none, none⟩ :=
  C8_replace_stackless ⟨"Error: x".toList, none, none, none⟩
    ("at foo (f.js:1:2)".toList) rfl

/-- C2 (amended): the operations guarded against malformed input return
defaults without raising — `getSourceStack` returns `{}` for a non-string
stack, `hasStack` returns `false` for a falsy stack, `replaceStack` returns
the error unchanged, `getCodeFrame` returns `undefined` when the error
carries neither a precomputed code frame nor a parsed stack — but
`isFromCypress` is unguarded and raises a TypeError when the error's stack
is missing or `null`. -/
theorem C2_malformed_guards :
    (∀ (P : ParseFn) (R : ResolveFn) (root : Str),
      getSourceStack P R none root = none) ∧
    (∀ e : ErrObj, jsFalsy e.stack = true → hasStack e = false) ∧
    (∀ (e : ErrObj) (newStack : Str), jsFalsy e.stack = true →
      replaceStack e newStack = e) ∧
    (∀ e : ErrObj, e.stack = none → isFromCypress e = Except.error ()) ∧
    (∀ (gsc : ContentsFn) (cfc : CodeFrameFn) (e : ErrObj),
      e.codeFrame = none → e.parsedStack = none → getCodeFrame gsc cfc e = none) := by
  refine ⟨fun P R root => rfl, ?_, ?_, ?_, ?_⟩
  · intro e h
    cases hs : e.stack with
    | none => rw [hasStack, hs]
    | some s =>
      simp only [hs, jsFalsy] at h
      rw [hasStack, hs]
      simp [h]
  · intro e newStack h
    rw [replaceStack, if_pos h]
  · intro e h
    rw [isFromCypress, h]
  · intro gsc cfc e h1 h2
    rw [getCodeFrame, h1, h2]
    rfl

/-- C2: `isFromCypress` raises (a TypeError from `err.stack.split`) on an
error whose stack is missing, contradicting the claim that no exported
operation ever raises for malformed error objects. -/
theorem C2_counterexample :
    isFromCypress ⟨"Error: foo".toList, none, none, none⟩ = Except.error () := rfl

theorem C2_witness :
    hasStack ⟨"Error: foo".toList, none, none, none⟩ = false :=
  C2_malformed_guards.2.1 ⟨"Error: foo".toList, none, none, none⟩ rfl

/-- C10 (amended): `normalizeStack` on an error with a falsy stack sets the
stack to `toString()` followed by a newline (and the empty original stack)
whenever the computed first message line — `toString()` up to its first
newline, or all but its last character when it has none — is nonempty; when
that computed line is empty (a `toString()` of length at most 1 with no
newline, or starting with a newline) the stack is left falsy. -/
theorem C10_normalize_stackless (e : ErrObj) (hf : jsFalsy e.stack = true)
    (hne : jsFirstLine e.toStr ≠ []) :
    (normalizeStack e).stack = some (e.toStr ++ ['\n']) := by
  have hstack : e.stack.getD [] = [] := by
    cases hs : e.stack with
    | none => rfl
    | some s =>
      simp only [hs, jsFalsy] at hf
      simp [List.isEmpty_iff.mp hf]
  have hincl : jsIncludes (jsFirstLine (e.stack.getD [])) (jsFirstLine e.toStr) = false := by
    rw [hstack]
    cases hx : jsFirstLine e.toStr with
    | nil => exact absurd hx hne
    | cons c cs => rfl
  simp only [normalizeStack, hincl, Bool.false_eq_true, if_false]
  rw [hstack]

/-- C10: the claim fails as stated — for an error whose `toString()` is the
single character `E` and whose stack is missing, `normalizeStack` leaves the
stack missing (the computed first error line is empty, and every string
includes the empty string), instead of setting it to `"E\n"`. -/
theorem C10_counterexample :
    (normalizeStack ⟨['E'], none, none, none⟩).stack = none := by decide

theorem C10_witness :
    (normalizeStack ⟨"Error: foo".toList, none, none, none⟩).stack =
      some ("Error: foo".toList ++ ['\n']) :=
  C10_normalize_stackless ⟨"Error: foo".toList, none, none, none⟩ rfl (by decide)

/-- C6: `normalizeStack` is idempotent on errors with a string stack: a
second application leaves the stack unchanged, because the prepended
`toString()` line makes the substring test of the second run succeed. -/
theorem C6_normalize_idem (e : ErrObj) (s : Str) (_h : e.stack = some s) :
    (normalizeStack (normalizeStack e)).stack = (normalizeStack e).stack := by
  by_cases hinc :
      jsIncludes (jsFirstLine (e.stack.getD [])) (jsFirstLine e.toStr) = true
  · have h1 : normalizeStack e = e := by
      simp only [normalizeStack]
      rw [if_pos hinc]
    rw [h1, h1]
  · have h1 : normalizeStack e =
        { e with stack := some (e.toStr ++ '\n' :: e.stack.getD []) } := by
      simp only [normalizeStack]
      rw [if_neg hinc]
    rw [h1]
    have h2 : normalizeStack { e with stack := some (e.toStr ++ '\n' :: e.stack.getD []) } =
        { e with stack := some (e.toStr ++ '\n' :: e.stack.getD []) } := by
      have hcond : jsIncludes (jsFirstLine (e.toStr ++ '\n' :: e.stack.getD []))
          (jsFirstLine e.toStr) = true := jsFirstLine_prepend_incl _ _
      simp only [normalizeStack, Option.getD_some]
      rw [if_pos hcond]
    rw [h2]

theorem C6_witness :
    (normalizeStack (normalizeStack
        ⟨"Error: foo".toList, some ("  at x (f.js:1:2)".toList), none, none⟩)).stack =
      (normalizeStack
        ⟨"Error: foo".toList, some ("  at x (f.js:1:2)".toList), none, none⟩).stack :=
  C6_normalize_idem ⟨"Error: foo".toList, some ("  at x (f.js:1:2)".toList), none, none⟩
    ("  at x (f.js:1:2)".toList) rfl

/-- C9: frame-line classification does not require an `@` or `(` in the line:
any line of non-line-terminator characters ending in `:<digits>:<digits>`,
optionally followed by `)`, matches `stackLineRegex` (its `@` and `(` are
optional), and `splitStack` classifies such a line as a frame line. -/
theorem C9_no_at_paren_needed (p d1 d2 : Str)
    (hp : ∀ c ∈ p, jsDot c = true)
    (h1 : d1 ≠ []) (h1d : ∀ c ∈ d1, jsDigit c = true)
    (h2 : d2 ≠ []) (h2d : ∀ c ∈ d2, jsDigit c = true) :
    jsTest (p ++ ':' :: (d1 ++ ':' :: d2)) = true ∧
    jsTest (p ++ ':' :: (d1 ++ ':' :: (d2 ++ [')']))) = true ∧
    splitStack (p ++ ':' :: (d1 ++ ':' :: d2)) =
      ([], [p ++ ':' :: (d1 ++ ':' :: d2)]) := by
  have hm1 : REMatch stackLineRE (p ++ ':' :: (d1 ++ ':' :: d2)) := by
    have := stackLineRE_match p d1 d2 [] hp h1 h1d h2 h2d rematch_opt_nil
    simpa using this
  have ht1 : jsTest (p ++ ':' :: (d1 ++ ':' :: d2)) = true :=
    (rmatch_iff _ _).mpr hm1
  have ht2 : jsTest (p ++ ':' :: (d1 ++ ':' :: (d2 ++ [')']))) = true := by
    have hclose : REMatch (optRE (chrB ')')) [')'] :=
      REMatch.altR (REMatch.cls (by rfl))
    exact (rmatch_iff _ _).mpr
      (stackLineRE_match p d1 d2 [')'] hp h1 h1d h2 h2d hclose)
  refine ⟨ht1, ht2, ?_⟩
  have hnl : '\n' ∉ (p ++ ':' :: (d1 ++ ':' :: d2)) := by
    intro hmem
    simp only [List.mem_append, List.mem_cons] at hmem
    rcases hmem with hin | hin | hin | hin | hin
    · exact absurd (hp _ hin) (by decide)
    · exact absurd hin (by decide)
    · exact absurd (h1d _ hin) (by decide)
    · exact absurd hin (by decide)
    · exact absurd (h2d _ hin) (by decide)
  have hsplit : splitNl (p ++ ':' :: (d1 ++ ':' :: d2)) =
      [p ++ ':' :: (d1 ++ ':' :: d2)] := splitOnChar_no_sep hnl
  rw [splitStack, hsplit]
  simp [splitStackStep, ht1]

theorem C9_witness :
    jsTest ("oops ".toList ++ ':' :: ("1".toList ++ ':' :: "2".toList)) = true ∧
    jsTest ("oops ".toList ++ ':' :: ("1".toList ++ ':' :: ("2".toList ++ [')']))) = true ∧
    splitStack ("oops ".toList ++ ':' :: ("1".toList ++ ':' :: "2".toList)) =
      ([], ["oops ".toList ++ ':' :: ("1".toList ++ ':' :: "2".toList)]) :=
  C9_no_at_paren_needed ("oops ".toList) ("1".toList) ("2".toList)
    (by decide) (by decide) (by decide) (by decide) (by decide)

/-- C3: when the external resolver returns an original position for a parsed
generated frame, the mapped frame takes its file and line from the resolver's
result (the generated file is kept only as `fileUrl`), and the reconstructed
stack line displays the resolver's column plus 1. -/
theorem C3_mapped_frame (P : ParseFn) (R : ResolveFn) (root l : Str)
    (gd : FrameDetails) (sd : SrcPos)
    (hparse : parseLine P l = some gd)
    (hres : R gd.file gd = some sd)
    (hfile : sd.file ≠ []) :
    getSourceDetailsForLine P R root l =
      ParsedLine.frame
        (if gd.function = ("Context.eval".toList) then ("Test.run".toList)
         else gd.function)
        gd.file sd.file (pathJoin root sd.file) sd.line (sd.column + 1)
        (getWhitespace l) ∧
    reconstructStack [getSourceDetailsForLine P R root l] =
      getWhitespace l ++ ("at ".toList) ++
        (if gd.function = ("Context.eval".toList) then ("Test.run".toList)
         else gd.function) ++
        (" (".toList) ++ sd.file ++ ':' :: natStr sd.line ++
        ':' :: natStr (sd.column + 1) ++ [')'] := by
  have hsd : getSourceDetails R gd =
      { line := sd.line, column := sd.column, file := sd.file,
        function :=
          if gd.function = ("Context.eval".toList) then ("Test.run".toList)
          else gd.function } := by
    rw [getSourceDetails, hres]
  have h1 : getSourceDetailsForLine P R root l =
      ParsedLine.frame
        (if gd.function = ("Context.eval".toList) then ("Test.run".toList)
         else gd.function)
        gd.file sd.file (pathJoin root sd.file) sd.line (sd.column + 1)
        (getWhitespace l) := by
    simp only [getSourceDetailsForLine, hparse, hsd]
  refine ⟨h1, ?_⟩
  rw [h1]
  simp only [reconstructStack, List.map_cons, List.map_nil, joinNl, joinChar,
    if_neg hfile]

theorem C3_witness :
    reconstructStack [getSourceDetailsForLine specParseFn
        (fun f _ => if f = ("bundle.js".toList) then some ⟨5, 1, "spec.js".toList⟩
                    else none)
        ("/root".toList) ("at foo (bundle.js:10:3)".toList)] =
      ("at foo (spec.js:5:2)".toList) :=
  ((C3_mapped_frame specParseFn
      (fun f _ => if f = ("bundle.js".toList) then some ⟨5, 1, "spec.js".toList⟩
                  else none)
      ("/root".toList) ("at foo (bundle.js:10:3)".toList)
      ⟨10, 3, "bundle.js".toList, "foo".toList⟩ ⟨5, 1, "spec.js".toList⟩
      (by decide) (by decide) (by decide)).2).trans (by decide)

/-- C1 (amended): the parse–reconstruct round trip of `getSourceStack` is
exact for stacks all of whose lines are message lines (failing the frame
grammar) with no leading whitespace. It is not exact in general: a message
line's leading whitespace is emitted twice (the stored `message` is the full
line and `reconstructStack` prepends the stored whitespace again), and a
frame line is re-rendered in canonical form with its column incremented
by 1. -/
theorem C1_message_roundtrip (P : ParseFn) (R : ResolveFn) (root s : Str)
    (h : ∀ l ∈ splitNl s, jsTest l = false ∧ getWhitespace l = []) :
    (getSourceStack P R (some s) root).map (fun r => r.2) = some s := by
  have key : reconstructStack ((splitNl s).map (getSourceDetailsForLine P R root)) = s := by
    rw [reconstructStack, List.map_map, joinNl]
    have hid : ∀ l ∈ splitNl s,
      ((fun parsedLine =>
          match parsedLine with
          | .message message whitespace => whitespace ++ message
          | .frame fn _ relativeFile _ line column whitespace =>
            whitespace ++ ("at ".toList) ++ fn ++ (" (".toList) ++
              (if relativeFile = [] then "<unknown>".toList else relativeFile) ++
              ':' :: natStr line ++ ':' :: natStr column ++ [')']) ∘
          getSourceDetailsForLine P R root) l = l := by
      intro l hl
      rcases h l hl with ⟨ht, hw⟩
      have hp : parseLine P l = none := by
        rw [parseLine, if_neg (by simp [ht])]
      simp [Function.comp, getSourceDetailsForLine, hp, hw]
    rw [joinChar_map_congr '\n' _ (splitNl s) hid]
    exact joinChar_splitOnChar '\n' s
  rw [getSourceStack]
  simpa using key

/-- C1: the round trip is not exact even with no source mapping applied — a
message line with leading whitespace (" oops") has the whitespace doubled,
and a frame line has its column incremented (2 becomes 3) — so
`reconstructStack` over the parsed lines differs from the input stack. -/
theorem C1_counterexample :
    (getSourceStack specParseFn (fun _ _ => none) (some (" oops".toList))
        []).map (fun r => r.2) = some ("  oops".toList) ∧
    (" oops".toList : Str) ≠ ("  oops".toList : Str) ∧
    (getSourceStack specParseFn (fun _ _ => none)
        (some ("at foo (file.js:1:2)".toList)) []).map (fun r => r.2) =
      some ("at foo (file.js:1:3)".toList) ∧
    ("at foo (file.js:1:2)".toList : Str) ≠ ("at foo (file.js:1:3)".toList : Str) :=
  ⟨by decide, by decide, by decide, by decide⟩

theorem C1_witness :
    (getSourceStack specParseFn (fun _ _ => none)
        (some ("Error: foo\nbar".toList)) []).map (fun r => r.2) =
      some ("Error: foo\nbar".toList) :=
  C1_message_roundtrip specParseFn (fun _ _ => none) []
    ("Error: foo\nbar".toList) (by decide)
